import Mathlib

/-!
Verification of the indented-typescript transform
(`leo/plugins/indented_typescript.py`).

The transform is embedded shallowly: lines are `List Char`, the per-unit
pipeline (`check_brackets`, `check_indentation`, `remove_brackets`) is a
family of executable functions returning `Except String _`, and the
batch driver `after_read` is a function on a list of units.  Python
regular-expression operations used by the source are embedded as
recursive character-list scans with the same semantics on the inputs the
source feeds them (single lines, `\n`-terminated).
-/

namespace IndentedTS

/-- Python `\s` whitespace characters. -/
def pySpace (c : Char) : Bool :=
  c = ' ' ∨ c = '\t' ∨ c = '\n' ∨ c = '\r' ∨ c = '\x0c' ∨ c = '\x0b'

/-- A line of text, one character per column. -/
abbrev Line := List Char

/-- Python `s.strip()` is truthy iff some character is not whitespace. -/
def nonblank (s : Line) : Bool := s.any (fun c => ¬ pySpace c)

/-- Python `s.rstrip()`. -/
def pyRstrip (s : Line) : Line := (s.reverse.dropWhile pySpace).reverse

/-- Count occurrences of a character. -/
def countChar (c : Char) (s : Line) : Nat := (s.filter (fun d => d = c)).length

/-- `g.splitLines`: split into lines, each keeping its trailing newline. -/
def splitLines : Line → List Line
  | [] => []
  | c :: rest =>
    if c = '\n' then ['\n'] :: splitLines rest
    else match splitLines rest with
      | [] => [[c]]
      | l :: ls => (c :: l) :: ls

/-- A curly-bracket token: the bracket character `'{'` or `'}'` together
with its line number and column number, exactly the triples the source
pushes on the stack and uses as `info` keys. -/
abbrev Token := Char × Nat × Nat

/-- The tokens of one guide line: every occurrence of `'{'` or `'}'`,
in column order (the order `re.finditer(r'{|}', line)` yields them). -/
def lineTokens (i : Nat) (j : Nat) : Line → List Token
  | [] => []
  | c :: rest =>
    if c = '{' ∨ c = '}' then (c, i, j) :: lineTokens i (j + 1) rest
    else lineTokens i (j + 1) rest

/-- All tokens of the guide lines starting at line number `i`. -/
def allTokensFrom (i : Nat) : List Line → List Token
  | [] => []
  | s :: rest => lineTokens i 0 s ++ allTokensFrom (i + 1) rest

/-- All curly-bracket tokens of the guide lines, in scan order. -/
def allTokens (guide_lines : List Line) : List Token :=
  allTokensFrom 0 guide_lines

/-- The `info` dict of `remove_brackets`: an association list whose keys
and values are tokens. -/
abbrev Info := List (Token × Token)

/-- Dictionary lookup in `info` (keys are never assigned twice, so
first-match lookup agrees with Python dict assignment). -/
def lookupInfo (t : Token) : Info → Option Token
  | [] => none
  | (k, v) :: rest => if k = t then some v else lookupInfo t rest

/-- Pass 1 of `IndentedTS.remove_brackets`, fused over the token stream:
push on `'{'`; on `'}'` pop and record the pair in `info` (both
directions), raising `stack underflow` on an empty stack; after the scan
raise `unmatch brackets` when the running `level` is nonzero. -/
def matchGo : List Token → List Token → Info → Int → Except String (Info × List Token)
  | [], stack, info, level =>
    if level ≠ 0 then .error "remove_brackets unmatch brackets"
    else .ok (info, stack)
  | t :: rest, stack, info, level =>
    if t.1 = '{' then
      matchGo rest (t :: stack) info (level + 1)
    else
      match stack with
      | top :: stack' =>
        matchGo rest stack' ((t, top) :: (top, t) :: info) (level - 1)
      | [] => .error "remove_brackets: stack underflow"

/-- Pass 1 of `remove_brackets` on the guide lines. -/
def pass1 (guide_lines : List Line) : Except String (Info × List Token) :=
  matchGo (allTokens guide_lines) [] [] 0

/-- The stack discipline the spec describes for the matcher: scanning
left to right, a close on an empty stack is an error, and a nonzero
final balance is an error.  `n` is the running stack size. -/
def balCheck : List Token → Nat → Bool
  | [], n => n = 0
  | t :: rest, n =>
    if t.1 = '{' then balCheck rest (n + 1)
    else match n with
      | 0 => false
      | m + 1 => balCheck rest m

/-- Find the first `'}'` with no `'\n'` before it; return the suffix
after it.  This is the reach of the lazy `.*?}` in the pattern
`{.*?}\s*` (a dot never crosses a newline). -/
def findCloseNoNL : Line → Option Line
  | [] => none
  | c :: rest =>
    if c = '\n' then none
    else if c = '}' then some rest
    else findCloseNoNL rest

/-- The recursion of `eraseMatched`, driven by a fuel that strictly
exceeds the number of characters still to scan (each step consumes at
least one character, so the fuel never runs out on a real call). -/
def eraseMatchedFuel : Nat → Line → Line
  | _, [] => []
  | 0, s => s
  | fuel + 1, c :: rest =>
    if c = '{' then
      match findCloseNoNL rest with
      | some rest2 => eraseMatchedFuel fuel (rest2.dropWhile pySpace)
      | none => c :: eraseMatchedFuel fuel rest
    else c :: eraseMatchedFuel fuel rest

/-- Python `re.sub(r'{.*?}\s*', '', line)`: repeatedly erase, left to
right, the stretch from an opening bracket to the first closing bracket
after it on the same line, together with the following whitespace run. -/
def eraseMatched (s : Line) : Line := eraseMatchedFuel s.length s

/-- The tail of the pattern `^\s*}.*?{\s*$` after the close: some later
`'{'` with no newline before it whose suffix is all whitespace. -/
def tailMatch : Line → Bool
  | [] => false
  | c :: rest =>
    (c = '{' && rest.all pySpace) || (c ≠ '\n' && tailMatch rest)

/-- Python `re.match(r'^\s*}.*?{\s*$', line)` as a Boolean test. -/
def bracketPatMatch (s : Line) : Bool :=
  match s.dropWhile pySpace with
  | '}' :: rest => tailMatch rest
  | _ => false

/-- Python `s.find(c)`: index of the first occurrence, `-1` if absent. -/
def pyFind (c : Char) (s : Line) : Int :=
  match s.findIdx? (fun d => d = c) with
  | some i => (i : Int)
  | none => -1

/-- The body of the `check_brackets` loop for one guide line: `none`
means the line is accepted, `some msg` that a `TypeError` is raised. -/
def checkBracketLine (l : Line) : Option String :=
  let e := eraseMatched l
  let n1 := countChar '{' e
  let n2 := countChar '}' e
  if n1 > 1 ∨ n2 > 1 then some "Too many curly brackets in line"
  else if n1 = 1 ∧ n2 = 1 ∧ pyFind '{' e > pyFind '}' e then
    if bracketPatMatch e then none else some "Too invalid curly brackets in line"
  else none

/-- Run a per-line check over the lines, stopping at the first error. -/
def firstErr (f : Line → Option String) : List Line → Except String Unit
  | [] => .ok ()
  | l :: rest =>
    match f l with
    | some e => .error e
    | none => firstErr f rest

/-- `IndentedTS.check_brackets` over the guide lines. -/
def check_brackets (guide_lines : List Line) : Except String Unit :=
  firstErr checkBracketLine guide_lines

/-- Length of the leading run of the indentation character
(`re.match(fr'^[{ws_char}]*', line)`). -/
def leadingRun (c : Char) (s : Line) : Nat := (s.takeWhile (fun d => d = c)).length

/-- The body of the `check_indentation` loop for one guide line, given
the running curly depth and paren depth: `none` means no error is
raised (a warning at most), `some msg` that a `TypeError` is raised. -/
def indentStep (wsChar : Char) (u : Nat) (curlies parens : Int) (line : Line) :
    Option String :=
  let lws := leadingRun wsChar line
  let level : Int := (lws / u : Nat)
  let rem := lws % u
  if parens ≠ 0 ∧ rem ≠ 0 then none
  else if parens = 0 ∧ nonblank line then
    let curlies2 : Int := curlies - (countChar '}' line : Nat)
    if (curlies2 > 0 ∧ level ≠ curlies2) ∨ rem ≠ 0 then some "Bad indentation"
    else none
  else none

/-- The main loop of `check_indentation`, threading the curly and paren
depths, generic in the per-line check so that spec-side variants can
share it. -/
def indentLoop (step : Int → Int → Line → Option String) :
    List Line → Int → Int → Except String Unit
  | [], _, _ => .ok ()
  | line :: rest, curlies, parens =>
    match step curlies parens line with
    | some e => .error e
    | none =>
      indentLoop step rest
        (curlies + (countChar '{' line : Int) - (countChar '}' line : Int))
        (parens + (countChar '(' line : Int) - (countChar ')' line : Int))

/-- `IndentedTS.check_indentation`: the indentation character is a space
for a negative width and a tab otherwise; a zero width fails the
internal assertion `indent_n > 0`. -/
def check_indentation (guide_lines : List Line) (indent : Int) : Except String Unit :=
  if indent.natAbs = 0 then .error "check_indentation: can not happen"
  else
    let wsChar := if indent < 0 then ' ' else '\t'
    indentLoop (indentStep wsChar indent.natAbs) guide_lines 0 0

/-- The per-line check exactly as the claim about `check_indentation`
words it: a nonzero remainder with positive paren depth only warns;
otherwise every non-blank line errors exactly when the projected depth
is positive and differs from the level, or the remainder is nonzero. -/
def claimIndentStep (wsChar : Char) (u : Nat) (curlies parens : Int) (line : Line) :
    Option String :=
  let lws := leadingRun wsChar line
  let level : Int := (lws / u : Nat)
  let rem := lws % u
  if parens > 0 ∧ rem ≠ 0 then none
  else if nonblank line then
    let curlies2 : Int := curlies - (countChar '}' line : Nat)
    if (curlies2 > 0 ∧ level ≠ curlies2) ∨ rem ≠ 0 then some "Bad indentation"
    else none
  else none

/-- The indentation validator as the claim describes it. -/
def claimCheckIndentation (guide_lines : List Line) (indent : Int) : Except String Unit :=
  if indent.natAbs = 0 then .error "check_indentation: can not happen"
  else
    let wsChar := if indent < 0 then ' ' else '\t'
    indentLoop (claimIndentStep wsChar indent.natAbs) guide_lines 0 0

/-- The per-line check as amended: whenever the paren depth is nonzero
the line is never error-checked (a nonzero remainder warns, a zero
remainder is skipped); only at paren depth zero does a non-blank line
error, exactly when the projected depth is positive and differs from
the level, or the remainder is nonzero. -/
def amendedIndentStep (wsChar : Char) (u : Nat) (curlies parens : Int) (line : Line) :
    Option String :=
  let lws := leadingRun wsChar line
  let level : Int := (lws / u : Nat)
  let rem := lws % u
  if parens ≠ 0 then none
  else if nonblank line then
    let curlies2 : Int := curlies - (countChar '}' line : Nat)
    if (curlies2 > 0 ∧ level ≠ curlies2) ∨ rem ≠ 0 then some "Bad indentation"
    else none
  else none

/-- The indentation validator as the amended claim describes it. -/
def amendedCheckIndentation (guide_lines : List Line) (indent : Int) : Except String Unit :=
  if indent.natAbs = 0 then .error "check_indentation: can not happen"
  else
    let wsChar := if indent < 0 then ' ' else '\t'
    indentLoop (amendedIndentStep wsChar indent.natAbs) guide_lines 0 0

/-- Pass 2 of `remove_brackets`: rescan the guide lines and raise
`ValueError` at the first token that is not a key of `info`. -/
def pass2 (guide_lines : List Line) (info : Info) : Except String Unit :=
  match (allTokens guide_lines).find? (fun t => (lookupInfo t info).isNone) with
  | some _ => .error "no matching info"
  | none => .ok ()

/-- Python `'}' in line`. -/
def containsClose (s : Line) : Bool := s.any (fun c => c = '}')

/-- Python `re.search(r'}\s*;', line)` as a Boolean test: some close
bracket followed, across a whitespace run, by a semicolon. -/
def semiSearch : Line → Bool
  | [] => false
  | c :: rest =>
    if c = '}' then
      (match rest.dropWhile pySpace with
       | ';' :: _ => true
       | _ => false) || semiSearch rest
    else semiSearch rest

/-- Columns of the `'}'` characters of a line, in order, starting at
column `j` (`re.finditer('}', line)`). -/
def closeColsAux (j : Nat) : Line → List Nat
  | [] => []
  | c :: rest => if c = '}' then j :: closeColsAux (j + 1) rest else closeColsAux (j + 1) rest

/-- Columns of the `'}'` characters of a line. -/
def closeCols (s : Line) : List Nat := closeColsAux 0 s

/-- `s[:col] + ' ' + s[col + 1:]`: blank the character at `col`. -/
def subst1 (s : Line) (col : Nat) : Line := s.take col ++ ' ' :: s.drop (col + 1)

/-- `new_line.rstrip() + '\n' if new_line.strip() else '\n'`. -/
def finish (s : Line) : Line := if nonblank s then pyRstrip s ++ ['\n'] else ['\n']

/-- The inner loop of pass 3 over the close brackets of one line:
look up the match; on a same-line match append the real line and break;
otherwise blank the matching open in the already-emitted line at index
`mline` and append this line with its close blanked. -/
def doCloses (info : Info) (lines : List Line) (ln : Nat) :
    List Nat → List Line → Except String (List Line)
  | [], res => .ok res
  | col :: rest, res =>
    match lookupInfo ('}', ln, col) info with
    | none => .error "no matching info"
    | some (mc, mline, mcol) =>
      if mc = '{' then
        if mline = ln then .ok (res ++ [lines.getD ln []])
        else
          doCloses info lines ln rest
            ((res.set mline (finish (subst1 (lines.getD mline []) mcol))) ++
              [finish (subst1 (lines.getD ln []) col)])
      else .error "remove_brackets: wrong matching curly bracket"

/-- Pass 3 of `remove_brackets`: lines without a close bracket are
appended from the guide lines; lines matching the close-semicolon
pattern are appended from the real lines unmodified; otherwise the
close brackets are processed by `doCloses`. -/
def pass3Go (info : Info) (lines : List Line) :
    Nat → List Line → List Line → Except String (List Line)
  | _, [], res => .ok res
  | ln, g :: grest, res =>
    if containsClose g = false then pass3Go info lines (ln + 1) grest (res ++ [g])
    else if semiSearch g then pass3Go info lines (ln + 1) grest (res ++ [lines.getD ln []])
    else do
      let res' ← doCloses info lines ln (closeCols g) res
      pass3Go info lines (ln + 1) grest res'

/-- `IndentedTS.remove_brackets`: pass 1 builds the pairing, pass 2
checks every token has a pairing entry, pass 3 computes the rewritten
lines (which the source then only prints). -/
def remove_brackets (guide_lines lines : List Line) : Except String (List Line) :=
  match pass1 guide_lines with
  | .error e => .error e
  | .ok (info, _stk) =>
    match pass2 guide_lines info with
    | .error e => .error e
    | .ok _ => pass3Go info lines 0 guide_lines []

/-- Modelled from the spec: the GuideLineSource collaborator
(`self.importer.make_guide_lines`, outside this excerpt) returns lines
of identical count and per-line length with delimiter characters
preserved verbatim outside string/comment literals and blanked inside
them; on text containing no literals it is the identity on lines, which
is the case for every input considered here. -/
def make_guide_lines (lines : List Line) : List Line := lines

/-- `IndentedTS.do_remove_brackets` for one unit body: blank bodies are
skipped; otherwise the three checks run in order.  The returned body is
the body after the call: the source never assigns the rewritten lines
to `p.b`, so a successful call leaves the body unchanged. -/
def do_remove_brackets (indent : Int) (body : Line) : Except String Line :=
  if ¬ nonblank body then .ok body
  else
    let lines := splitLines body
    let guide_lines := make_guide_lines lines
    if lines.isEmpty ∨ lines.length ≠ guide_lines.length then
      .error "do_remove_brackets: assert lines"
    else do
      check_brackets guide_lines
      check_indentation guide_lines indent
      let _ ← remove_brackets guide_lines lines
      .ok body

/-- A text unit: a stable identity (`gnx`) and a mutable body. -/
structure TUnit where
  gnx : String
  body : Line
deriving DecidableEq

/-- The per-unit loop of `after_read`, deduplicated by gnx: returns the
first error message, or `none` when every unit succeeds. -/
def processAll (indent : Int) (seen : List String) : List TUnit → Option String
  | [] => none
  | u :: rest =>
    if u.gnx ∈ seen then processAll indent seen rest
    else
      match do_remove_brackets indent u.body with
      | .ok _ => processAll indent (u.gnx :: seen) rest
      | .error e => some e

/-- `IndentedTS.after_read` on the batch (root first, then the
descendants in traversal order).  The scanned tab-width directive is
`tab_width` (`0` standing for a missing directive, defaulted to `-4` by
`or -4`).  The backup dict stores `p.b` — the root's body — for every
vnode of the subtree (its membership test `p2.gnx not in backup_d`
compares gnx strings against vnode keys and so never fires), hence a
failure restores every unit's body to the root's original body. -/
def after_read (tab_width : Int) (units : List TUnit) : List TUnit × Option String :=
  match units with
  | [] => ([], none)
  | root :: _ =>
    let indent := if tab_width = 0 then -4 else tab_width
    match processAll indent [] units with
    | none => (units, none)
    | some e => (units.map (fun u => { u with body := root.body }), some e)

/-- The multiset of non-whitespace, non-curly-bracket characters of a
line sequence (the content the round-trip claim says elision must
preserve). -/
def contentChars (lines : List Line) : Multiset Char :=
  ↑(lines.flatten.filter (fun c => ¬ pySpace c ∧ c ≠ '{' ∧ c ≠ '}'))

/-- Whether an `Except` computation returned normally. -/
def okB {α : Type} : Except String α → Bool
  | .ok _ => true
  | .error _ => false

/-- C1: atomicity of a batch transform fails in the code.  For the
batch with root body `"a\n"` and child body `"\x7d\n"`, the child's
transform raises (stack underflow), and the rollback then sets every
unit's body to the ROOT's original body (`backup_d[p2.v] = p.b` backs
up `p.b`, not `p2.b`): afterwards the child's body is `"a\n"`, not its
pre-transform body `"\x7d\n"`. -/
theorem c1_backup_restores_root_body :
    after_read 0 [⟨"root", "a\n".toList⟩, ⟨"child", "\x7d\n".toList⟩] =
      ([⟨"root", "a\n".toList⟩, ⟨"child", "a\n".toList⟩],
        some "remove_brackets: stack underflow")
    ∧ "a\n".toList ≠ "\x7d\n".toList := by
  exact ⟨rfl, by decide⟩

/-- C2: commit on success never happens in the code.  On the three-line
unit the pipeline completes without raising and the remover computes
the rewritten lines, but `do_remove_brackets` leaves the body unchanged
(the source only prints `result_lines` and never assigns `p.b`), and
the joined remover output differs from that body. -/
theorem c2_no_commit_on_success :
    do_remove_brackets (-4) "if cond \x7b\n    doThing()\n\x7d\n".toList =
      .ok "if cond \x7b\n    doThing()\n\x7d\n".toList
    ∧ remove_brackets (splitLines "if cond \x7b\n    doThing()\n\x7d\n".toList)
        (splitLines "if cond \x7b\n    doThing()\n\x7d\n".toList) =
      .ok ["if cond\n".toList, "    doThing()\n".toList, "\n".toList]
    ∧ ("if cond\n".toList ++ "    doThing()\n".toList ++ "\n".toList) ≠
        "if cond \x7b\n    doThing()\n\x7d\n".toList := by
  exact ⟨rfl, rfl, by decide⟩

/-- C3: round-trip safety fails in the code.  The two-line input
`"\x7b\n"`, `"\x7d \x7bx\x7d\n"` passes every validation, yet pass 3 appends the
second line twice (once elided for the cross-line close, once verbatim
for the same-line pair), so the output has three lines and one more
`'x'` than the input. -/
theorem c3_roundtrip_broken :
    remove_brackets ["\x7b\n".toList, "\x7d \x7bx\x7d\n".toList] ["\x7b\n".toList, "\x7d \x7bx\x7d\n".toList] =
      .ok ["\n".toList, "  \x7bx\x7d\n".toList, "\x7d \x7bx\x7d\n".toList]
    ∧ check_brackets ["\x7b\n".toList, "\x7d \x7bx\x7d\n".toList] = .ok ()
    ∧ check_indentation ["\x7b\n".toList, "\x7d \x7bx\x7d\n".toList] (-4) = .ok ()
    ∧ ([ "\n".toList, "  \x7bx\x7d\n".toList, "\x7d \x7bx\x7d\n".toList] : List Line).length ≠
        ([ "\x7b\n".toList, "\x7d \x7bx\x7d\n".toList] : List Line).length
    ∧ contentChars ["\n".toList, "  \x7bx\x7d\n".toList, "\x7d \x7bx\x7d\n".toList] ≠
        contentChars ["\x7b\n".toList, "\x7d \x7bx\x7d\n".toList] := by
  refine ⟨rfl, rfl, rfl, by decide, ?_⟩
  decide

/-- C7 counterexample: a negative indentation width is not rejected —
`after_read` with the default width `-4` (and with a missing directive,
scanned as `0` and defaulted to `-4`) processes the batch without any
error, contradicting "zero or negative ... fatal for the whole batch,
before the indentation pass runs". -/
theorem c7_counterexample :
    after_read (-4) [⟨"r", "a\n".toList⟩] = ([⟨"r", "a\n".toList⟩], none)
    ∧ after_read 0 [⟨"r", "a\n".toList⟩] = ([⟨"r", "a\n".toList⟩], none) := by
  exact ⟨rfl, rfl⟩

/-- C7 as amended: a zero scanned tab-width directive is replaced by
the default `-4` before any processing, so `after_read` behaves as with
`-4`; a negative width is valid (it selects space indentation); and a
zero width handed directly to `check_indentation` is rejected by the
assertion inside that pass, not before any unit is processed. -/
theorem c7_amended_zero_defaults_negative_valid :
    (∀ units, after_read 0 units = after_read (-4) units)
    ∧ (∀ guide_lines, check_indentation guide_lines 0 =
        .error "check_indentation: can not happen")
    ∧ after_read (-4) [⟨"r", "a\n".toList⟩] = ([⟨"r", "a\n".toList⟩], none) := by
  refine ⟨fun units => ?_, fun guide_lines => rfl, rfl⟩
  cases units <;> rfl

/-- C5 counterexample: on `"f(\x7b\n"`, `"x\n"`, `"\x7d)\n"` with width `-4`
the code accepts every line, but the claimed rule errors on `"x\n"`:
there the paren depth is `1` and the remainder is `0`, so per the claim
the non-blank line must be checked (projected depth `1` differs from
level `0`), yet the code checks a line only when the paren depth is
exactly zero. -/
theorem c5_counterexample :
    check_indentation ["f(\x7b\n".toList, "x\n".toList, "\x7d)\n".toList] (-4) = .ok ()
    ∧ claimCheckIndentation ["f(\x7b\n".toList, "x\n".toList, "\x7d)\n".toList] (-4) ≠ .ok () := by
  refine ⟨rfl, ?_⟩
  have h : claimCheckIndentation ["f(\x7b\n".toList, "x\n".toList, "\x7d)\n".toList] (-4) =
      .error "Bad indentation" := rfl
  rw [h]
  exact fun hc => Except.noConfusion hc

/-- C6: line-level bracket validation.  For every guide line, after
erasing the same-line matched open...close occurrences, the validator
errors exactly when more than one open or more than one close remains,
or when exactly one close and one open remain with the close lexically
before the open and the remaining line does not match "optional leading
whitespace, close, content up to an open, optional trailing
whitespace"; all other lines are accepted.  The aggregate validator
accepts a sequence exactly when it accepts every line. -/
theorem c6_check_brackets_characterization :
    (∀ l : Line,
      (checkBracketLine l).isSome = true ↔
        ((countChar '{' (eraseMatched l) > 1 ∨ countChar '}' (eraseMatched l) > 1) ∨
         (countChar '{' (eraseMatched l) = 1 ∧ countChar '}' (eraseMatched l) = 1 ∧
           pyFind '}' (eraseMatched l) < pyFind '{' (eraseMatched l) ∧
           bracketPatMatch (eraseMatched l) = false)))
    ∧ (∀ guide_lines : List Line,
        check_brackets guide_lines = .ok () ↔ ∀ l ∈ guide_lines, checkBracketLine l = none) := by
  constructor
  · intro l
    simp only [checkBracketLine]
    split_ifs with h1 h2 h3 <;> simp_all
  · intro guide_lines
    induction guide_lines with
    | nil => simp [check_brackets, firstErr]
    | cons l rest ih =>
      simp only [check_brackets, firstErr] at *
      cases h : checkBracketLine l with
      | some e =>
        simp only [h]
        constructor
        · intro hc; exact absurd hc (fun hc => Except.noConfusion hc)
        · intro hall
          exact absurd (hall l (by simp)) (by simp [h])
      | none =>
        simp only [h]
        rw [ih]
        constructor
        · intro hall l' hl'
          rcases List.mem_cons.mp hl' with rfl | hl'
          · exact h
          · exact hall l' hl'
        · intro hall l' hl'
          exact hall l' (List.mem_cons_of_mem _ hl')

/-- Witness for C6 at a concrete line: `"a \x7d b \x7b\n"` (one close before
one open, but content precedes the close) is rejected. -/
theorem c6_witness : (checkBracketLine "a \x7d b \x7b\n".toList).isSome = true :=
  (c6_check_brackets_characterization.1 "a \x7d b \x7b\n".toList).mpr (by decide)

theorem indentStep_eq_amended (wsChar : Char) (u : Nat) (curlies parens : Int) (line : Line) :
    indentStep wsChar u curlies parens line = amendedIndentStep wsChar u curlies parens line := by
  by_cases hp : parens = 0 <;> simp [indentStep, amendedIndentStep, hp]

/-- C5 as amended: whenever the running paren depth is nonzero the line
is never error-checked (a nonzero remainder only warns and a zero
remainder is skipped without any check); only at paren depth zero does
a non-blank line raise, exactly when the projected depth is positive
and differs from the level or the remainder is nonzero; the depths are
then updated by the line's net opens minus closes. -/
theorem c5_amended_paren_nonzero_unchecked :
    ∀ (guide_lines : List Line) (indent : Int),
      check_indentation guide_lines indent = amendedCheckIndentation guide_lines indent := by
  intro guide_lines indent
  by_cases h : indent.natAbs = 0
  · simp only [check_indentation, amendedCheckIndentation, if_pos h]
  · simp only [check_indentation, amendedCheckIndentation, if_neg h]
    have hstep : indentStep (if indent < 0 then ' ' else '\t') indent.natAbs =
        amendedIndentStep (if indent < 0 then ' ' else '\t') indent.natAbs :=
      funext fun c => funext fun p => funext fun l => indentStep_eq_amended _ _ c p l
    rw [hstep]

theorem lookupInfo_cons (x a b : Token) (l : Info) :
    lookupInfo x ((a, b) :: l) = if a = x then some b else lookupInfo x l := rfl

theorem matchGo_inv :
    ∀ (ts : List Token) (stack : List Token) (info : Info) (level : Int)
      (T : List Token) (info' : Info) (stack' : List Token),
      matchGo ts stack info level = .ok (info', stack') →
      ts.Nodup →
      (∀ t ∈ ts, lookupInfo t info = none ∧ t ∉ stack) →
      (∀ s ∈ stack, s.1 = '{' ∧ lookupInfo s info = none) →
      stack.Nodup →
      (∀ a b, lookupInfo a info = some b → lookupInfo b info = some a) →
      (∀ a b, lookupInfo a info = some b →
        (a.1 = '{' ∧ b.1 = '}') ∨ (a.1 = '}' ∧ b.1 = '{')) →
      (∀ t ∈ ts, t.1 = '{' ∨ t.1 = '}') →
      (∀ t ∈ ts, t ∈ T) → (∀ s ∈ stack, s ∈ T) →
      (∀ a b, lookupInfo a info = some b → a ∈ T ∧ b ∈ T) →
      ((∀ a b, lookupInfo a info' = some b → lookupInfo b info' = some a)
       ∧ (∀ a b, lookupInfo a info' = some b →
            (a.1 = '{' ∧ b.1 = '}') ∨ (a.1 = '}' ∧ b.1 = '{'))
       ∧ (∀ t, lookupInfo t info ≠ none → lookupInfo t info' ≠ none)
       ∧ (∀ t ∈ ts, lookupInfo t info' ≠ none ∨ t ∈ stack')
       ∧ (∀ s ∈ stack, lookupInfo s info' ≠ none ∨ s ∈ stack')
       ∧ (∀ a b, lookupInfo a info' = some b → a ∈ T ∧ b ∈ T)) := by
  intro ts
  induction ts with
  | nil =>
    intro stack info level T info' stack' hok hnd hfresh hstack hsnd hsym hflip hkind hT1 hT2 hT3
    simp only [matchGo] at hok
    split_ifs at hok with hl
    cases hok
    exact ⟨hsym, hflip, fun t h => h, by simp, fun s hs => Or.inr hs, hT3⟩
  | cons t rest ih =>
    intro stack info level T info' stack' hok hnd hfresh hstack hsnd hsym hflip hkind hT1 hT2 hT3
    simp only [matchGo] at hok
    have hndr : rest.Nodup := (List.nodup_cons.mp hnd).2
    have htnr : t ∉ rest := (List.nodup_cons.mp hnd).1
    have ht := hfresh t (by simp)
    split_ifs at hok with ht1
    · -- open bracket: push
      have := ih (t :: stack) info (level + 1) T info' stack' hok hndr
        (fun u hu => ⟨(hfresh u (by simp [hu])).1, by
          simp only [List.mem_cons, not_or]
          exact ⟨fun he => htnr (he ▸ hu), (hfresh u (by simp [hu])).2⟩⟩)
        (fun s hs => by
          rcases List.mem_cons.mp hs with rfl | hs
          · exact ⟨ht1, ht.1⟩
          · exact hstack s hs)
        (List.nodup_cons.mpr ⟨ht.2, hsnd⟩)
        hsym hflip
        (fun u hu => hkind u (by simp [hu]))
        (fun u hu => hT1 u (by simp [hu]))
        (fun s hs => by
          rcases List.mem_cons.mp hs with rfl | hs
          · exact hT1 s (by simp)
          · exact hT2 s hs)
        hT3
      refine ⟨this.1, this.2.1, this.2.2.1, ?_, ?_, this.2.2.2.2.2⟩
      · intro u hu
        rcases List.mem_cons.mp hu with rfl | hu
        · exact this.2.2.2.2.1 u (by simp)
        · exact this.2.2.2.1 u hu
      · intro s hs
        exact this.2.2.2.2.1 s (by simp [hs])
    · -- close bracket: pop and pair
      cases stack with
      | nil => exact absurd hok (fun h => Except.noConfusion h)
      | cons top stack2 =>
        have htop := hstack top (by simp)
        have htne : t ≠ top := fun he => ht1 (he ▸ htop.1)
        have htk : t.1 = '}' := (hkind t (by simp)).resolve_left ht1
        have htopnotin : top ∉ stack2 := (List.nodup_cons.mp hsnd).1
        -- lookup in the extended info
        have hlt : lookupInfo t ((t, top) :: (top, t) :: info) = some top := by
          simp [lookupInfo_cons]
        have hltop : lookupInfo top ((t, top) :: (top, t) :: info) = some t := by
          simp [lookupInfo_cons, htne]
        have hlother : ∀ x, x ≠ t → x ≠ top →
            lookupInfo x ((t, top) :: (top, t) :: info) = lookupInfo x info := by
          intro x hx1 hx2
          have h1 : ¬ (t = x) := fun h => hx1 h.symm
          have h2 : ¬ (top = x) := fun h => hx2 h.symm
          rw [lookupInfo_cons, if_neg h1, lookupInfo_cons, if_neg h2]
        have hkeyval : ∀ y, lookupInfo y info ≠ none → y ≠ t ∧ y ≠ top := by
          intro y hy
          constructor
          · intro he; exact hy (he ▸ ht.1)
          · intro he; exact hy (he ▸ htop.2)
        have hsym2 : ∀ a b, lookupInfo a ((t, top) :: (top, t) :: info) = some b →
            lookupInfo b ((t, top) :: (top, t) :: info) = some a := by
          intro a b hab
          by_cases ha1 : a = t
          · subst ha1
            rw [hlt] at hab; cases hab
            exact hltop
          · by_cases ha2 : a = top
            · subst ha2
              rw [hltop] at hab; cases hab
              exact hlt
            · rw [hlother a ha1 ha2] at hab
              have hba := hsym a b hab
              have hb := hkeyval b (by rw [hba]; exact fun h => Option.noConfusion h)
              rw [hlother b hb.1 hb.2]
              exact hba
        have hflip2 : ∀ a b, lookupInfo a ((t, top) :: (top, t) :: info) = some b →
            (a.1 = '{' ∧ b.1 = '}') ∨ (a.1 = '}' ∧ b.1 = '{') := by
          intro a b hab
          by_cases ha1 : a = t
          · subst ha1
            rw [hlt] at hab; cases hab
            exact Or.inr ⟨htk, htop.1⟩
          · by_cases ha2 : a = top
            · subst ha2
              rw [hltop] at hab; cases hab
              exact Or.inl ⟨htop.1, htk⟩
            · rw [hlother a ha1 ha2] at hab
              exact hflip a b hab
        have hmono2 : ∀ y, lookupInfo y info ≠ none →
            lookupInfo y ((t, top) :: (top, t) :: info) ≠ none := by
          intro y hy
          have := hkeyval y hy
          rw [hlother y this.1 this.2]
          exact hy
        have hT32 : ∀ a b, lookupInfo a ((t, top) :: (top, t) :: info) = some b →
            a ∈ T ∧ b ∈ T := by
          intro a b hab
          by_cases ha1 : a = t
          · subst ha1
            rw [hlt] at hab; cases hab
            exact ⟨hT1 a (by simp), hT2 top (by simp)⟩
          · by_cases ha2 : a = top
            · subst ha2
              rw [hltop] at hab; cases hab
              exact ⟨hT2 a (by simp), hT1 t (by simp)⟩
            · rw [hlother a ha1 ha2] at hab
              exact hT3 a b hab
        have := ih stack2 ((t, top) :: (top, t) :: info) (level - 1) T info' stack' hok hndr
          (fun u hu => by
            have hu2 := hfresh u (by simp [hu])
            have hunt : u ≠ t := fun he => htnr (he ▸ hu)
            have hunotop : u ≠ top := fun he => hu2.2 (by simp [he])
            refine ⟨?_, fun hin => hu2.2 (by simp [hin])⟩
            rw [hlother u hunt hunotop]
            exact hu2.1)
          (fun s hs => by
            have hs2 := hstack s (by simp [hs])
            have hsnt : s ≠ t := fun he => ht.2 (by simp [he ▸ hs])
            have hsntop : s ≠ top := fun he => htopnotin (he ▸ hs)
            refine ⟨hs2.1, ?_⟩
            rw [hlother s hsnt hsntop]
            exact hs2.2)
          (List.nodup_cons.mp hsnd).2
          hsym2 hflip2
          (fun u hu => hkind u (by simp [hu]))
          (fun u hu => hT1 u (by simp [hu]))
          (fun s hs => hT2 s (by simp [hs]))
          hT32
        refine ⟨this.1, this.2.1, ?_, ?_, ?_, this.2.2.2.2.2⟩
        · intro y hy
          exact this.2.2.1 y (hmono2 y hy)
        · intro u hu
          rcases List.mem_cons.mp hu with rfl | hu
          · exact Or.inl (this.2.2.1 u (by rw [hlt]; exact fun h => Option.noConfusion h))
          · exact this.2.2.2.1 u hu
        · intro s hs
          rcases List.mem_cons.mp hs with rfl | hs
          · exact Or.inl (this.2.2.1 s (by rw [hltop]; exact fun h => Option.noConfusion h))
          · exact this.2.2.2.2.1 s hs

theorem lineTokens_mem : ∀ (cs : Line) (i j : Nat) (tk : Token), tk ∈ lineTokens i j cs →
    tk.2.1 = i ∧ j ≤ tk.2.2 ∧ (tk.1 = '{' ∨ tk.1 = '}') := by
  intro cs
  induction cs with
  | nil => intro i j tk h; simp [lineTokens] at h
  | cons c rest ih =>
    intro i j tk h
    simp only [lineTokens] at h
    split_ifs at h with hc
    · rcases List.mem_cons.mp h with rfl | h
      · exact ⟨rfl, Nat.le_refl _, hc⟩
      · have := ih i (j + 1) tk h
        exact ⟨this.1, Nat.le_trans (Nat.le_succ _) this.2.1, this.2.2⟩
    · have := ih i (j + 1) tk h
      exact ⟨this.1, Nat.le_trans (Nat.le_succ _) this.2.1, this.2.2⟩

theorem lineTokens_nodup : ∀ (cs : Line) (i j : Nat), (lineTokens i j cs).Nodup := by
  intro cs
  induction cs with
  | nil => intro i j; simp [lineTokens]
  | cons c rest ih =>
    intro i j
    simp only [lineTokens]
    split_ifs with hc
    · refine List.nodup_cons.mpr ⟨?_, ih i (j + 1)⟩
      intro hmem
      have h2 := (lineTokens_mem rest i (j + 1) _ hmem).2.1
      exact Nat.not_succ_le_self j h2
    · exact ih i (j + 1)

theorem allTokensFrom_mem : ∀ (gs : List Line) (i : Nat) (tk : Token),
    tk ∈ allTokensFrom i gs → i ≤ tk.2.1 ∧ (tk.1 = '{' ∨ tk.1 = '}') := by
  intro gs
  induction gs with
  | nil => intro i tk h; simp [allTokensFrom] at h
  | cons s rest ih =>
    intro i tk h
    rcases List.mem_append.mp h with h | h
    · have := lineTokens_mem s i 0 tk h
      exact ⟨le_of_eq this.1.symm, this.2.2⟩
    · have := ih (i + 1) tk h
      exact ⟨Nat.le_trans (Nat.le_succ _) this.1, this.2⟩

theorem allTokensFrom_nodup : ∀ (gs : List Line) (i : Nat), (allTokensFrom i gs).Nodup := by
  intro gs
  induction gs with
  | nil => intro i; simp [allTokensFrom]
  | cons s rest ih =>
    intro i
    simp only [allTokensFrom]
    refine List.Nodup.append (lineTokens_nodup s i 0) (ih (i + 1)) ?_
    intro tk h1 h2
    have e1 := (lineTokens_mem s i 0 tk h1).1
    have e2 := (allTokensFrom_mem rest (i + 1) tk h2).1
    omega

theorem allTokens_nodup (guide_lines : List Line) : (allTokens guide_lines).Nodup :=
  allTokensFrom_nodup guide_lines 0

theorem allTokens_kind (guide_lines : List Line) :
    ∀ tk ∈ allTokens guide_lines, tk.1 = '{' ∨ tk.1 = '}' :=
  fun tk h => (allTokensFrom_mem guide_lines 0 tk h).2

theorem matchGo_isOk : ∀ (ts : List Token) (stack : List Token) (info : Info),
    okB (matchGo ts stack info (stack.length : Int)) = balCheck ts stack.length := by
  intro ts
  induction ts with
  | nil =>
    intro stack info
    simp only [matchGo, balCheck]
    split_ifs with h
    · simp only [okB]
      symm
      simp only [decide_eq_false_iff_not]
      intro hc
      exact h (by exact_mod_cast hc)
    · simp only [okB]
      symm
      simp only [decide_eq_true_eq]
      have : (stack.length : Int) = 0 := not_not.mp h
      exact_mod_cast this
  | cons t rest ih =>
    intro stack info
    simp only [matchGo, balCheck]
    split_ifs with ht
    · have : ((stack.length : Int) + 1) = ((t :: stack).length : Int) := by
        simp
      rw [this]
      exact ih (t :: stack) info
    · cases stack with
      | nil => simp [okB]
      | cons top stack2 =>
        have : ((top :: stack2).length : Int) - 1 = (stack2.length : Int) := by
          simp
        rw [this]
        exact ih stack2 ((t, top) :: (top, t) :: info)

theorem matchGo_ok_stack_empty :
    ∀ (ts stack : List Token) (info : Info) (info' : Info) (stack' : List Token),
      matchGo ts stack info (stack.length : Int) = .ok (info', stack') → stack' = [] := by
  intro ts
  induction ts with
  | nil =>
    intro stack info info' stack' hok
    simp only [matchGo] at hok
    split_ifs at hok with h
    cases hok
    have : (stack.length : Int) = 0 := not_not.mp h
    have : stack.length = 0 := by exact_mod_cast this
    exact List.length_eq_zero.mp this
  | cons t rest ih =>
    intro stack info info' stack' hok
    simp only [matchGo] at hok
    split_ifs at hok with ht
    · have he : ((stack.length : Int) + 1) = ((t :: stack).length : Int) := by simp
      rw [he] at hok
      exact ih (t :: stack) info info' stack' hok
    · cases stack with
      | nil => exact absurd hok (fun h => Except.noConfusion h)
      | cons top stack2 =>
        have he : ((top :: stack2).length : Int) - 1 = (stack2.length : Int) := by simp
        rw [he] at hok
        exact ih stack2 ((t, top) :: (top, t) :: info) info' stack' hok

theorem pass1_invariants (gls : List Line) (info : Info) (stack : List Token)
    (hok : pass1 gls = .ok (info, stack)) :
    stack = []
    ∧ (∀ a b, lookupInfo a info = some b → lookupInfo b info = some a)
    ∧ (∀ a b, lookupInfo a info = some b →
        (a.1 = '{' ∧ b.1 = '}') ∨ (a.1 = '}' ∧ b.1 = '{'))
    ∧ (∀ t ∈ allTokens gls, lookupInfo t info ≠ none)
    ∧ (∀ a b, lookupInfo a info = some b →
        a ∈ allTokens gls ∧ b ∈ allTokens gls) := by
  have hempty : stack = [] :=
    matchGo_ok_stack_empty (allTokens gls) [] [] info stack hok
  have hinv := matchGo_inv (allTokens gls) [] [] 0 (allTokens gls) info stack hok
    (allTokens_nodup gls)
    (fun t _ => ⟨rfl, by simp⟩)
    (fun s hs => absurd hs (by simp))
    (by simp)
    (fun a b h => Option.noConfusion h)
    (fun a b h => Option.noConfusion h)
    (allTokens_kind gls)
    (fun t ht => ht)
    (fun s hs => absurd hs (by simp))
    (fun a b h => Option.noConfusion h)
  refine ⟨hempty, hinv.1, hinv.2.1, ?_, hinv.2.2.2.2.2⟩
  intro t ht
  rcases hinv.2.2.2.1 t ht with h | h
  · exact h
  · rw [hempty] at h
    exact absurd h (by simp)

/-- C4: balance invariant of the matching pass.  Pass 1 returns
normally exactly when the left-to-right scan never meets a close on an
empty stack and ends with balance zero (`balCheck`); on a normal
return the internal stack is empty and the pairing `info` is a
symmetric association that flips Open and Close and covers every token
of the guide lines. -/
theorem c4_matcher_balance_invariant :
    ∀ guide_lines : List Line,
      okB (pass1 guide_lines) = balCheck (allTokens guide_lines) 0
      ∧ (∀ info stack, pass1 guide_lines = .ok (info, stack) →
          stack = []
          ∧ (∀ a b, lookupInfo a info = some b → lookupInfo b info = some a)
          ∧ (∀ a b, lookupInfo a info = some b →
              (a.1 = '{' ∧ b.1 = '}') ∨ (a.1 = '}' ∧ b.1 = '{'))
          ∧ (∀ t ∈ allTokens guide_lines, lookupInfo t info ≠ none)) := by
  intro gls
  constructor
  · exact matchGo_isOk (allTokens gls) [] []
  · intro info stack hok
    have h := pass1_invariants gls info stack hok
    exact ⟨h.1, h.2.1, h.2.2.1, h.2.2.2.1⟩

/-- Witness for C4 on the guide line `"\x7b\x7d"`: pass 1 succeeds and pairs
the close token at column 1 with the open token at column 0. -/
theorem c4_witness :
    lookupInfo (('}', 0, 1) : Token)
      [((('}', 0, 1) : Token), (('{', 0, 0) : Token)),
       ((('{', 0, 0) : Token), (('}', 0, 1) : Token))] ≠ none := by
  have h := (c4_matcher_balance_invariant ["\x7b\x7d".toList]).2
    [((('}', 0, 1) : Token), (('{', 0, 0) : Token)),
     ((('{', 0, 0) : Token), (('}', 0, 1) : Token))]
    [] rfl
  exact h.2.2.2 (('}', 0, 1) : Token) (by decide)

/-- C10: unreachability of the `no matching info` branch.  Whenever
pass 1 completes without raising, every curly token found by rescanning
the same guide lines is a key of the pairing map, so pass 2 returns
normally. -/
theorem c10_pass2_never_fails :
    ∀ (guide_lines : List Line) (info : Info) (stack : List Token),
      pass1 guide_lines = .ok (info, stack) → pass2 guide_lines info = .ok () := by
  intro gls info stack hok
  have htotal := (pass1_invariants gls info stack hok).2.2.2.1
  unfold pass2
  cases hfind : (allTokens gls).find? (fun t => (lookupInfo t info).isNone) with
  | none => rfl
  | some t =>
    have hmem := List.mem_of_find?_eq_some hfind
    have hpred := List.find?_some hfind
    have : lookupInfo t info = none := by
      simpa [Option.isNone_iff_eq_none] using hpred
    exact absurd this (htotal t hmem)

/-- Witness for C10 on the guide line `"\x7b\x7d"`. -/
theorem c10_witness :
    pass2 ["\x7b\x7d".toList]
      [((('}', 0, 1) : Token), (('{', 0, 0) : Token)),
       ((('{', 0, 0) : Token), (('}', 0, 1) : Token))] = .ok () :=
  c10_pass2_never_fails ["\x7b\x7d".toList]
    [((('}', 0, 1) : Token), (('{', 0, 0) : Token)),
     ((('{', 0, 0) : Token), (('}', 0, 1) : Token))]
    [] rfl

/-- C9 counterexample: on the three-line unit with width 4, the code
rstrips every rewritten line, so line 0 comes out `"if cond\n"`, not
the claimed `"if cond \n"` (blank in the delimiter's column). -/
theorem c9_counterexample :
    check_brackets ["if cond \x7b\n".toList, "    doThing()\n".toList, "\x7d\n".toList] = .ok ()
    ∧ check_indentation ["if cond \x7b\n".toList, "    doThing()\n".toList, "\x7d\n".toList] (-4) =
        .ok ()
    ∧ remove_brackets ["if cond \x7b\n".toList, "    doThing()\n".toList, "\x7d\n".toList]
        ["if cond \x7b\n".toList, "    doThing()\n".toList, "\x7d\n".toList] ≠
      .ok ["if cond \n".toList, "    doThing()\n".toList, "\n".toList] := by
  refine ⟨rfl, rfl, ?_⟩
  have he : remove_brackets ["if cond \x7b\n".toList, "    doThing()\n".toList, "\x7d\n".toList]
      ["if cond \x7b\n".toList, "    doThing()\n".toList, "\x7d\n".toList] =
      .ok ["if cond\n".toList, "    doThing()\n".toList, "\n".toList] := rfl
  rw [he]
  intro h
  exact absurd (Except.ok.inj h) (by decide)

/-- C9 as amended: the transform blanks the delimiters on lines 0 and 2
and right-strips each rewritten line, producing `"if cond\n"` (trailing
blank stripped), `"    doThing()\n"`, and `"\n"` (the all-whitespace
last line collapsed to a line terminator). -/
theorem c9_amended_output :
    check_brackets ["if cond \x7b\n".toList, "    doThing()\n".toList, "\x7d\n".toList] = .ok ()
    ∧ check_indentation ["if cond \x7b\n".toList, "    doThing()\n".toList, "\x7d\n".toList] (-4) =
        .ok ()
    ∧ remove_brackets ["if cond \x7b\n".toList, "    doThing()\n".toList, "\x7d\n".toList]
        ["if cond \x7b\n".toList, "    doThing()\n".toList, "\x7d\n".toList] =
      .ok ["if cond\n".toList, "    doThing()\n".toList, "\n".toList] :=
  ⟨rfl, rfl, rfl⟩

/-- C8 counterexample: line 1 of `"a \x7b\n"`, `"\x7d; \x7b\n"`, `"\x7d\n"` has its
close followed by a terminator, yet it does NOT appear unmodified in
the output: its open bracket is blanked later, when the close on line 2
is processed, yielding `"\x7d;\n"`. -/
theorem c8_counterexample :
    remove_brackets ["a \x7b\n".toList, "\x7d; \x7b\n".toList, "\x7d\n".toList]
        ["a \x7b\n".toList, "\x7d; \x7b\n".toList, "\x7d\n".toList] =
      .ok ["a \x7b\n".toList, "\x7d;\n".toList, "\n".toList]
    ∧ semiSearch "\x7d; \x7b\n".toList = true
    ∧ "\x7d;\n".toList ≠ "\x7d; \x7b\n".toList :=
  ⟨rfl, rfl, by decide⟩

theorem semiSearch_contains : ∀ s : Line, semiSearch s = true → '}' ∈ s := by
  intro s
  induction s with
  | nil => intro h; exact absurd h (by simp [semiSearch])
  | cons c rest ih =>
    intro h
    simp only [semiSearch] at h
    split_ifs at h with hc
    · rw [hc]
      exact List.mem_cons_self _ _
    · exact List.mem_cons_of_mem _ (ih h)

theorem containsClose_mem : ∀ s : Line, containsClose s = true ↔ '}' ∈ s := by
  intro s
  simp [containsClose, List.any_eq_true]

theorem countChar_eq_zero : ∀ (c : Char) (s : Line), countChar c s = 0 ↔ c ∉ s := by
  intro c s
  rw [countChar, List.length_eq_zero, List.filter_eq_nil]
  constructor
  · intro h hc
    exact absurd (by simp : decide (c = c) = true) (h c hc)
  · intro h a ha
    simp only [decide_eq_true_eq]
    intro he
    exact h (he ▸ ha)

theorem closeColsAux_length : ∀ (s : Line) (j : Nat),
    (closeColsAux j s).length = countChar '}' s := by
  intro s
  induction s with
  | nil => intro j; rfl
  | cons c rest ih =>
    intro j
    by_cases hc : c = '}' <;> simp [closeColsAux, hc, ih, countChar, List.filter]

theorem closeCols_singleton (g : Line) (hcl : containsClose g = true)
    (h1 : countChar '{' g + countChar '}' g ≤ 1) : ∃ col, closeCols g = [col] := by
  have hmem : '}' ∈ g := (containsClose_mem g).mp hcl
  have hpos : countChar '}' g ≠ 0 := fun h0 => ((countChar_eq_zero _ _).mp h0) hmem
  have hone : countChar '}' g = 1 := by omega
  have hlen : (closeCols g).length = 1 := by rw [closeCols, closeColsAux_length, hone]
  exact List.length_eq_one.mp hlen

theorem getD_set_ne : ∀ (l : List Line) (m j : Nat) (x : Line), m ≠ j →
    (l.set m x).getD j [] = l.getD j [] := by
  intro l
  induction l with
  | nil => intro m j x h; simp
  | cons a rest ih =>
    intro m j x h
    cases m with
    | zero =>
      cases j with
      | zero => exact absurd rfl h
      | succ j2 => simp
    | succ m2 =>
      cases j with
      | zero => simp
      | succ j2 =>
        simpa using ih m2 j2 x (fun he => h (by rw [he]))

theorem lineTokens_char : ∀ (cs : Line) (i j : Nat) (tk : Token),
    tk ∈ lineTokens i j cs → tk.1 ∈ cs := by
  intro cs
  induction cs with
  | nil => intro i j tk h; exact absurd h (by simp [lineTokens])
  | cons c rest ih =>
    intro i j tk h
    simp only [lineTokens] at h
    split_ifs at h with hc
    · rcases List.mem_cons.mp h with rfl | h
      · exact List.mem_cons_self _ _
      · exact List.mem_cons_of_mem _ (ih i (j + 1) tk h)
    · exact List.mem_cons_of_mem _ (ih i (j + 1) tk h)

theorem allTokensFrom_char : ∀ (gs : List Line) (i : Nat) (tk : Token),
    tk ∈ allTokensFrom i gs →
    ∃ k, k < gs.length ∧ tk.2.1 = i + k ∧ tk.1 ∈ gs.getD k [] := by
  intro gs
  induction gs with
  | nil => intro i tk h; exact absurd h (by simp [allTokensFrom])
  | cons s rest ih =>
    intro i tk h
    rcases List.mem_append.mp h with h | h
    · exact ⟨0, by simp, by simpa using (lineTokens_mem s i 0 tk h).1,
        by simpa using lineTokens_char s i 0 tk h⟩
    · obtain ⟨k, hk, he, hm⟩ := ih (i + 1) tk h
      exact ⟨k + 1, by simpa using hk, by omega, by simpa using hm⟩

theorem allTokens_char (gls : List Line) (tk : Token) (h : tk ∈ allTokens gls) :
    tk.2.1 < gls.length ∧ tk.1 ∈ gls.getD tk.2.1 [] := by
  obtain ⟨k, hk, he, hm⟩ := allTokensFrom_char gls 0 tk h
  have he2 : tk.2.1 = k := by omega
  rw [he2]
  exact ⟨hk, hm⟩

theorem doCloses_pres (info : Info) (lines : List Line) (ln : Nat) (prot : Nat → Bool)
    (hml : ∀ ln2 col v, lookupInfo ('}', ln2, col) info = some v → prot v.2.1 = false) :
    ∀ (cols : List Nat) (res res' : List Line),
      doCloses info lines ln cols res = .ok res' →
      ∀ j, j < res.length → prot j = true →
        res'.getD j [] = res.getD j [] ∧ res.length ≤ res'.length := by
  intro cols
  induction cols with
  | nil =>
    intro res res' hok j hj hp
    simp only [doCloses] at hok
    cases hok
    exact ⟨rfl, Nat.le_refl _⟩
  | cons col rest ih =>
    intro res res' hok j hj hp
    simp only [doCloses] at hok
    cases hlk : lookupInfo ('}', ln, col) info with
    | none =>
      simp only [hlk] at hok
      exact absurd hok (fun h => Except.noConfusion h)
    | some v =>
      obtain ⟨mc, ml, mcol⟩ := v
      simp only [hlk] at hok
      split_ifs at hok with h1 h2
      · cases hok
        exact ⟨List.getD_append _ _ _ _ hj, by simp⟩
      · have hprotml : prot ml = false := hml ln col (mc, ml, mcol) hlk
        have hmlj : ml ≠ j := fun he => by
          rw [he, hp] at hprotml
          exact Bool.noConfusion hprotml
        have hrec := ih _ res' hok j
          (by rw [List.length_append, List.length_set]; omega) hp
        refine ⟨?_, ?_⟩
        · rw [hrec.1, List.getD_append _ _ _ _ (by rw [List.length_set]; omega),
            getD_set_ne res ml j _ hmlj]
        · have hl2 : res.length + 1 =
              ((res.set ml (finish (subst1 (lines.getD ml []) mcol))) ++
                [finish (subst1 (lines.getD ln []) col)]).length := by
            simp
          omega

theorem pass3Go_pres (info : Info) (lines : List Line) (prot : Nat → Bool)
    (hml : ∀ ln2 col v, lookupInfo ('}', ln2, col) info = some v → prot v.2.1 = false) :
    ∀ (gs : List Line) (ln : Nat) (res res' : List Line),
      pass3Go info lines ln gs res = .ok res' →
      ∀ j, j < res.length → prot j = true →
        res'.getD j [] = res.getD j [] ∧ res.length ≤ res'.length := by
  intro gs
  induction gs with
  | nil =>
    intro ln res res' hok j hj hp
    simp only [pass3Go] at hok
    cases hok
    exact ⟨rfl, Nat.le_refl _⟩
  | cons g grest ih =>
    intro ln res res' hok j hj hp
    simp only [pass3Go] at hok
    split_ifs at hok with hncl hsemi
    · have hrec := ih (ln + 1) (res ++ [g]) res' hok j (by simp; omega) hp
      refine ⟨?_, ?_⟩
      · rw [hrec.1, List.getD_append _ _ _ _ hj]
      · have : res.length ≤ (res ++ [g]).length := by simp
        omega
    · have hrec := ih (ln + 1) (res ++ [lines.getD ln []]) res' hok j (by simp; omega) hp
      refine ⟨?_, ?_⟩
      · rw [hrec.1, List.getD_append _ _ _ _ hj]
      · have : res.length ≤ (res ++ [lines.getD ln []]).length := by simp
        omega
    · cases hdc : doCloses info lines ln (closeCols g) res with
      | error e =>
        rw [hdc] at hok
        exact absurd hok (fun h => Except.noConfusion h)
      | ok res2 =>
        rw [hdc] at hok
        have hok2 : pass3Go info lines (ln + 1) grest res2 = .ok res' := hok
        have h1 := doCloses_pres info lines ln prot hml (closeCols g) res res2 hdc j hj hp
        have h2 := ih (ln + 1) res2 res' hok2 j (by omega) hp
        exact ⟨by rw [h2.1, h1.1], by omega⟩

theorem doCloses_single_length (info : Info) (lines : List Line) (ln col : Nat)
    (res res2 : List Line) (hok : doCloses info lines ln [col] res = .ok res2) :
    res2.length = res.length + 1 := by
  simp only [doCloses] at hok
  cases hlk : lookupInfo ('}', ln, col) info with
  | none =>
    simp only [hlk] at hok
    exact absurd hok (fun h => Except.noConfusion h)
  | some v =>
    obtain ⟨mc, ml, mcol⟩ := v
    simp only [hlk] at hok
    split_ifs at hok with h1 h2
    · cases hok
      simp
    · cases hok
      simp

theorem pass3Go_main (info : Info) (lines : List Line) (prot : Nat → Bool)
    (hml : ∀ ln2 col v, lookupInfo ('}', ln2, col) info = some v → prot v.2.1 = false) :
    ∀ (gs : List Line) (ln : Nat) (res res' : List Line),
      pass3Go info lines ln gs res = .ok res' →
      res.length = ln →
      (∀ g ∈ gs, countChar '{' g + countChar '}' g ≤ 1) →
      (∀ k, k < gs.length → semiSearch (gs.getD k []) = true → prot (ln + k) = true) →
      res'.length = ln + gs.length
      ∧ (∀ k, k < gs.length → semiSearch (gs.getD k []) = true →
          res'.getD (ln + k) [] = lines.getD (ln + k) []) := by
  intro gs
  induction gs with
  | nil =>
    intro ln res res' hok hlen hc hprot
    simp only [pass3Go] at hok
    cases hok
    exact ⟨by simp [hlen], fun k hk => absurd hk (by simp)⟩
  | cons g grest ih =>
    intro ln res res' hok hlen hc hprot
    simp only [pass3Go] at hok
    split_ifs at hok with hncl hsemi
    · -- no close bracket on this line
      have hrec := ih (ln + 1) (res ++ [g]) res' hok (by simp [hlen])
        (fun x hx => hc x (List.mem_cons_of_mem _ hx))
        (fun k hk hs => by
          have := hprot (k + 1) (by simpa using hk) (by simpa using hs)
          rw [show ln + 1 + k = ln + (k + 1) by omega]
          exact this)
      refine ⟨by rw [hrec.1]; simp; omega, ?_⟩
      intro k hk hs
      cases k with
      | zero =>
        have hg : '}' ∈ g := semiSearch_contains g (by simpa using hs)
        exact absurd ((containsClose_mem g).mpr hg) (by simp [hncl])
      | succ k2 =>
        have := hrec.2 k2 (by simpa using hk) (by simpa using hs)
        rw [show ln + (k2 + 1) = ln + 1 + k2 by omega]
        exact this
    · -- close-semicolon line: appended from the real lines, then preserved
      have hrec := ih (ln + 1) (res ++ [lines.getD ln []]) res' hok (by simp [hlen])
        (fun x hx => hc x (List.mem_cons_of_mem _ hx))
        (fun k hk hs => by
          have := hprot (k + 1) (by simpa using hk) (by simpa using hs)
          rw [show ln + 1 + k = ln + (k + 1) by omega]
          exact this)
      refine ⟨by rw [hrec.1]; simp; omega, ?_⟩
      intro k hk hs
      cases k with
      | zero =>
        have hpr := pass3Go_pres info lines prot hml grest (ln + 1)
          (res ++ [lines.getD ln []]) res' hok ln (by simp [hlen])
          (by simpa using hprot 0 (by simp) (by simpa using hs))
        have happ : (res ++ [lines.getD ln []]).getD ln [] = lines.getD ln [] := by
          rw [List.getD_append_right _ _ _ _ (Nat.le_of_eq hlen), hlen]
          simp
        rw [Nat.add_zero, hpr.1, happ]
      | succ k2 =>
        have := hrec.2 k2 (by simpa using hk) (by simpa using hs)
        rw [show ln + (k2 + 1) = ln + 1 + k2 by omega]
        exact this
    · -- a close bracket to process
      have hcl : containsClose g = true := by
        cases hb : containsClose g with
        | false => exact absurd hb hncl
        | true => rfl
      obtain ⟨col, hcols⟩ := closeCols_singleton g hcl (hc g (List.mem_cons_self _ _))
      cases hdc : doCloses info lines ln (closeCols g) res with
      | error e =>
        rw [hdc] at hok
        exact absurd hok (fun h => Except.noConfusion h)
      | ok res2 =>
        rw [hdc] at hok
        have hok2 : pass3Go info lines (ln + 1) grest res2 = .ok res' := hok
        have hlen2 : res2.length = ln + 1 := by
          rw [hcols] at hdc
          rw [doCloses_single_length info lines ln col res res2 hdc, hlen]
        have hrec := ih (ln + 1) res2 res' hok2 hlen2
          (fun x hx => hc x (List.mem_cons_of_mem _ hx))
          (fun k hk hs => by
            have := hprot (k + 1) (by simpa using hk) (by simpa using hs)
            rw [show ln + 1 + k = ln + (k + 1) by omega]
            exact this)
        refine ⟨by rw [hrec.1]; simp; omega, ?_⟩
        intro k hk hs
        cases k with
        | zero => exact absurd (by simpa using hs) (by simpa using hsemi)
        | succ k2 =>
          have := hrec.2 k2 (by simpa using hk) (by simpa using hs)
          rw [show ln + (k2 + 1) = ln + 1 + k2 by omega]
          exact this

/-- C8 as amended: when every guide line contains at most one curly
bracket, the output of the remover has one line per input line, and
every line whose close bracket is followed (up to whitespace) by a
semicolon appears unmodified, at its own index, in the remover's
output — even when its matching open is on an earlier line.  (The
unrestricted claim is refuted by `"\x7d; \x7b\n"`: a line containing both the
guarded close and an open matched from a later line is rewritten after
having been appended unmodified.) -/
theorem c8_amended_semicolon_guard :
    ∀ (guide_lines lines res : List Line),
      remove_brackets guide_lines lines = .ok res →
      (∀ g ∈ guide_lines, countChar '{' g + countChar '}' g ≤ 1) →
      res.length = guide_lines.length
      ∧ (∀ i, i < guide_lines.length → semiSearch (guide_lines.getD i []) = true →
          res.getD i [] = lines.getD i []) := by
  intro gls lines res hrm hc
  simp only [remove_brackets] at hrm
  cases hp1 : pass1 gls with
  | error e =>
    simp only [hp1] at hrm
    exact absurd hrm (fun h => Except.noConfusion h)
  | ok p =>
    obtain ⟨info, stk⟩ := p
    simp only [hp1] at hrm
    cases hp2 : pass2 gls info with
    | error e =>
      simp only [hp2] at hrm
      exact absurd hrm (fun h => Except.noConfusion h)
    | ok u =>
      cases u
      simp only [hp2] at hrm
      have hp3 : pass3Go info lines 0 gls [] = .ok res := hrm
      have hinv := pass1_invariants gls info stk hp1
      have hml : ∀ ln2 col v, lookupInfo ('}', ln2, col) info = some v →
          (fun m => semiSearch (gls.getD m [])) v.2.1 = false := by
        intro ln2 col v hlk
        have hflip := hinv.2.2.1 ('}', ln2, col) v hlk
        have hvk : v.1 = '{' := by
          rcases hflip with ⟨ha, _⟩ | ⟨_, hb⟩
          · have hfst : (('}', ln2, col) : Token).1 = '}' := rfl
            rw [hfst] at ha
            exact absurd ha (by decide)
          · exact hb
        have hmem := (hinv.2.2.2.2 ('}', ln2, col) v hlk).2
        have hchar := allTokens_char gls v hmem
        cases hps : semiSearch (gls.getD v.2.1 []) with
        | false => exact hps
        | true =>
          exfalso
          have hcb : '}' ∈ gls.getD v.2.1 [] := semiSearch_contains _ hps
          have hob : '{' ∈ gls.getD v.2.1 [] := hvk ▸ hchar.2
          have hline := hc (gls.getD v.2.1 [])
            (by rw [List.getD_eq_getElem _ _ hchar.1]; exact List.getElem_mem _)
          have hc1 : countChar '{' (gls.getD v.2.1 []) ≠ 0 :=
            fun h0 => ((countChar_eq_zero _ _).mp h0) hob
          have hc2 : countChar '}' (gls.getD v.2.1 []) ≠ 0 :=
            fun h0 => ((countChar_eq_zero _ _).mp h0) hcb
          omega
      have hmain := pass3Go_main info lines (fun m => semiSearch (gls.getD m [])) hml
        gls 0 [] res hp3 rfl hc
        (fun k _ hs => by simpa using hs)
      refine ⟨by simpa using hmain.1, ?_⟩
      intro i hi hs
      have := hmain.2 i hi hs
      simpa using this

/-- Witness for C8 as amended, on the two-line unit `"a \x7b\n"`, `"\x7d;\n"`
whose second line is guarded by the terminator: it survives unmodified
at index 1. -/
theorem c8_witness :
    (remove_brackets ["a \x7b\n".toList, "\x7d;\n".toList] ["a \x7b\n".toList, "\x7d;\n".toList] =
      .ok ["a \x7b\n".toList, "\x7d;\n".toList])
    ∧ (["a \x7b\n".toList, "\x7d;\n".toList] : List Line).getD 1 [] = "\x7d;\n".toList := by
  refine ⟨rfl, ?_⟩
  have h := c8_amended_semicolon_guard ["a \x7b\n".toList, "\x7d;\n".toList]
    ["a \x7b\n".toList, "\x7d;\n".toList] ["a \x7b\n".toList, "\x7d;\n".toList] rfl
    (by decide)
  exact h.2 1 (by decide) (by decide)

end IndentedTS
